import Mathlib

/-!
Shallow embedding of `mass.py` (Wii-Balanceboard): the `BalanceBoard`
session state machine, its receive-loop body, the mass calculator, the
`disconnect` teardown and the `mass_server` broadcast tick.

Conventions of the embedding:
* Python byte strings become `List ℕ` (each entry one byte).
* Python `float` arithmetic is modelled over `ℚ`.
* Fallible Python code (IndexError on element access or element
  assignment, `struct.error` on a short unpack, ZeroDivisionError)
  returns `Option`: `none` models an uncaught exception, which kills the
  receive-loop thread.
* I/O (socket sends, prints) has no session-state effect and is dropped.
-/

/-- The session status strings of `mass.py` (`"Connecting"` never occurs in
the source; the spec's enum also names it, and including it is harmless). -/
inductive Status where
  | Connecting : Status
  | Connected : Status
  | Disconnected : Status
deriving DecidableEq

/-- Modelled from the spec: `constants.py` is imported by `mass.py`
(`from constants import *`) but is not under `src/`. The spec fixes the
calibration block as three 16-bit points (zero, half, full) for each of
four axes, i.e. 24 bytes; `calculate_mass` reads calibration offsets up
to byte 23, consistent with this value. -/
def CALIBRATION_LENGTH : ℕ := 24

/-- Modelled from the spec: the low 16 bits of `CALIBRATION_ADDR`
(`struct.unpack(">H", CALIBRATION_ADDR[-2:])[0]` in `mass.py` line 78),
a fixed device memory address from the missing `constants.py`. The
claims depend only on it being a fixed number. -/
def CALIB_START_LSB : ℕ := 36

/-- Modelled from the spec: packet-type discriminator byte `STATUS[0]`
from the missing `constants.py`. The claims depend only on the four
discriminators being distinct. -/
def STATUS_BYTE : ℕ := 32

/-- Modelled from the spec: packet-type discriminator byte `REPORT_CB[0]`
(button report) from the missing `constants.py`. -/
def REPORT_CB_BYTE : ℕ := 48

/-- Modelled from the spec: packet-type discriminator byte `READ_RTN[0]`
(read acknowledgement / calibration chunk) from the missing `constants.py`. -/
def READ_RTN_BYTE : ℕ := 33

/-- Modelled from the spec: packet-type discriminator byte `REPORT_CB8E[0]`
(continuous sensor report) from the missing `constants.py`. -/
def REPORT_CB8E_BYTE : ℕ := 50

/-- State of one `BalanceBoard` object (`mass.py` lines 18-25); the
socket and thread handles are external resources and carry no decoded
protocol state. -/
structure Session where
  address : String
  status : Status
  calibration_data : List ℕ
  calibration_mask : List ℕ
  sensor_data : List ℕ
  mass : List ℚ
  total_mass : ℚ
deriving DecidableEq

/-- Session state after `__init__` ran to its successful end
(`mass.py` lines 18-37): field initialisation (lines 20-25) followed by
`status = "Connected"` on line 35. -/
def initSession (address : String) : Session :=
  { address := address
    status := Status.Connected
    calibration_data := List.replicate CALIBRATION_LENGTH 0
    calibration_mask := List.replicate CALIBRATION_LENGTH 1
    sensor_data := List.replicate 8 0
    mass := List.replicate 4 0
    total_mass := 0 }

/-- Python `struct.unpack(">H", l[off:off+2])[0]`: one big-endian 16-bit
integer; `none` when fewer than two bytes are available (struct.error). -/
def decodeBE2 (l : List ℕ) (off : ℕ) : Option ℕ :=
  match l.get? off, l.get? (off + 1) with
  | some hi, some lo => some (hi * 256 + lo)
  | _, _ => none

/-- The value `decodeBE2` yields when it succeeds (missing bytes read as 0). -/
def getBE (l : List ℕ) (off : ℕ) : ℕ :=
  (l.get? off).getD 0 * 256 + (l.get? (off + 1)).getD 0

/-- Python `struct.unpack(">HHHH", l[off:off+8])`: four big-endian 16-bit
integers; `none` when fewer than eight bytes are available (struct.error). -/
def decode4BE (l : List ℕ) (off : ℕ) : Option (ℕ × ℕ × ℕ × ℕ) :=
  match decodeBE2 l off, decodeBE2 l (off + 2), decodeBE2 l (off + 4), decodeBE2 l (off + 6) with
  | some a, some b, some c, some d => some (a, b, c, d)
  | _, _, _, _ => none

/-- Python list element assignment `l[i] = v`: `none` is the IndexError
raised when `i` is out of range. -/
def setItem {α : Type} (l : List α) (i : ℕ) (v : α) : Option (List α) :=
  if i < l.length then some (l.set i v) else none

/-- The write-back loop of the calibration-chunk handler (`mass.py`
lines 81-83): `for i in range(length)`, read `data[7+i]`, assign
`calibration_data[offset+i]` and `calibration_mask[offset+i] = 0`.
The last argument is the number of iterations still to run. -/
def chunkLoop (data : List ℕ) : List ℕ → List ℕ → ℕ → ℕ → ℕ → Option (List ℕ × List ℕ)
  | cd, cm, _, _, 0 => some (cd, cm)
  | cd, cm, offset, i, n + 1 =>
    match data.get? (7 + i) with
    | none => none
    | some b =>
      match setItem cd (offset + i) b with
      | none => none
      | some cd2 =>
        match setItem cm (offset + i) 0 with
        | none => none
        | some cm2 => chunkLoop data cd2 cm2 offset (i + 1) n

/-- The calibration-chunk handler (`mass.py` lines 79-84): if
`start_LSB <= addr < start_LSB + CALIBRATION_LENGTH`, run the write-back
loop at `offset = addr - start_LSB`; otherwise fall through with the
arrays untouched. -/
def applyCalibrationChunk (cd cm : List ℕ) (addr len : ℕ) (data : List ℕ) :
    Option (List ℕ × List ℕ) :=
  if CALIB_START_LSB ≤ addr ∧ addr < CALIB_START_LSB + CALIBRATION_LENGTH then
    chunkLoop data cd cm (addr - CALIB_START_LSB) 0 len
  else
    some (cd, cm)

/-- One axis of `calculate_mass` (`mass.py` lines 97-102), after the three
calibration points have been decoded.  The second branch's divisor
`half - zero` is nonzero whenever that branch runs (its guard forces
`zero <= point < half`), so only the third branch can raise
ZeroDivisionError (`none`), exactly as in the source. -/
def massAxisCode (zero half full point : ℕ) : Option ℚ :=
  if point < zero then some 0
  else if zero ≤ point ∧ point < half then
    some (((point : ℚ) - (zero : ℚ)) * (17 / ((half : ℚ) - (zero : ℚ))))
  else if full = half then none
  else some ((((point : ℚ) - (half : ℚ)) * (17 / ((full : ℚ) - (half : ℚ)))) + 17)

/-- The spec's statement of the per-axis mass formula, written from the
spec's words (claim C1) rather than from the source, for comparison with
`massAxisCode`: mass is 0 below `zero`, `(point - zero) * 17 / (half - zero)`
between `zero` and `half`, and `(point - half) * 17 / (full - half) + 17`
from `half` up. -/
def specMassAxis (zero half full point : ℕ) : ℚ :=
  if point < zero then 0
  else if zero ≤ point ∧ point < half then
    ((point : ℚ) - (zero : ℚ)) * 17 / ((half : ℚ) - (zero : ℚ))
  else ((point : ℚ) - (half : ℚ)) * 17 / ((full : ℚ) - (half : ℚ)) + 17

/-- One iteration of the `calculate_mass` loop body for axis `i`
(`mass.py` lines 94-96): decode `zero`, `half`, `full` big-endian from
calibration bytes `2i`, `2i+8`, `2i+16`, then run the branch logic. -/
def axisMass (cal : List ℕ) (i point : ℕ) : Option ℚ :=
  match decodeBE2 cal (i * 2), decodeBE2 cal (i * 2 + 8), decodeBE2 cal (i * 2 + 16) with
  | some zero, some half, some full => massAxisCode zero half full point
  | _, _, _ => none

/-- The `for i, point in enumerate(self.sensor_data)` loop of
`calculate_mass` (`mass.py` lines 93-102), with the running index and the
current `mass` list threaded through; `self.mass[i] = ...` is the checked
assignment `setItem`. -/
def calcMassLoop (cal : List ℕ) : List ℚ → ℕ → List ℕ → Option (List ℚ)
  | mass, _, [] => some mass
  | mass, i, point :: ps =>
    match axisMass cal i point with
    | none => none
    | some v =>
      match setItem mass i v with
      | none => none
      | some m2 => calcMassLoop cal m2 (i + 1) ps

/-- `calculate_mass` (`mass.py` lines 92-103): recompute `mass` from
`sensor_data` and `calibration_data`, then `total_mass = sum(self.mass)`. -/
def calculateMass (s : Session) : Option Session :=
  match calcMassLoop s.calibration_data s.mass 0 s.sensor_data with
  | none => none
  | some m => some { s with mass := m, total_mass := m.sum }

/-- One iteration of the receive loop body (`mass.py` lines 66-90):
read a frame, dispatch on `data[1]`.  Status and button frames only print
and resend commands (after touching `data[3]`/`data[4]`, whose absence
would raise); a read acknowledgement decodes `length = (data[4] >> 4) + 1`
and a big-endian address from `data[5:7]` and runs the calibration
write-back; a sensor report overwrites `sensor_data` with the four
big-endian 16-bit values of `data[4:12]` and recomputes mass only when
`not any(self.calibration_mask)`; other packet types are ignored. -/
def runStep (s : Session) (data : List ℕ) : Option Session :=
  match data.get? 1 with
  | none => none
  | some packet_type =>
    if packet_type = STATUS_BYTE then
      match data.get? 3, data.get? 4 with
      | some _, some _ => some s
      | _, _ => none
    else if packet_type = REPORT_CB_BYTE then
      match data.get? 3 with
      | some _ => some s
      | none => none
    else if packet_type = READ_RTN_BYTE then
      match data.get? 4 with
      | none => none
      | some b4 =>
        match decodeBE2 data 5 with
        | none => none
        | some addr =>
          match applyCalibrationChunk s.calibration_data s.calibration_mask
              addr ((b4 >>> 4) + 1) data with
          | none => none
          | some (cd, cm) =>
            some { s with calibration_data := cd, calibration_mask := cm }
    else if packet_type = REPORT_CB8E_BYTE then
      match decode4BE data 4 with
      | none => none
      | some (a, b, c, d) =>
        if s.calibration_mask.any (fun x => x != 0) then
          some { s with sensor_data := [a, b, c, d] }
        else calculateMass { s with sensor_data := [a, b, c, d] }
    else some s

/-- The `while self.status == "Connected"` condition of the receive loop
(`mass.py` line 65). -/
def recvLoopContinues (s : Session) : Bool :=
  decide (s.status = Status.Connected)

/-- `disconnect` (`mass.py` lines 105-116).  Line 106 reads
`self.status == "Disconnected"`: a comparison whose result is discarded,
not an assignment, embedded here as the discarded `_cmp`.  The remaining
lines join the receive thread and close the two sockets (external
resources, no session-state effect). -/
def disconnect (s : Session) : Session :=
  let _cmp : Bool := decide (s.status = Status.Disconnected)
  s

/-- Python's lexicographic comparison of two character sequences by code
point, as used by `list.sort()` on strings. -/
def charListLe : List Char → List Char → Bool
  | [], _ => true
  | _ :: _, [] => false
  | a :: as, b :: bs =>
    if a.toNat < b.toNat then true
    else if b.toNat < a.toNat then false
    else charListLe as bs

/-- Python string comparison, lifted to Lean strings. -/
def strLe (a b : String) : Bool := charListLe a.data b.data

/-- Python dict lookup `boards[k]` over an association list of the dict's
items (keys distinct in a dict); total here because `mass_server` only
looks up keys taken from the dict itself. -/
def dictGet (l : List (String × ℚ)) (k : String) : ℚ :=
  match l with
  | [] => 0
  | (a, b) :: t => if k = a then b else dictGet t k

/-- One tick of `mass_server` (`mass.py` lines 138-151): sum
`total_mass` over `boards.values()`, sort the keys ascending, build the
`board_masses` entries `(addr, total_mass)` in key order, and return the
payload `(total, boards)` that line 151 serialises verbatim to JSON.
The dict of sessions is abstracted to the association list of
`(address, total_mass)` pairs it holds at the tick. -/
def mass_server (boards : List (String × ℚ)) : ℚ × List (String × ℚ) :=
  let total := (boards.map Prod.snd).sum
  let keys := List.insertionSort (fun a b => strLe a b = true) (boards.map Prod.fst)
  let board_masses := keys.map (fun k => (k, dictGet boards k))
  (total, board_masses)

/-- Calibration bytes encoding `zero = 100`, `half = 200`, `full = 300`
on every axis (the spec's worked example). -/
def calEx : List ℕ :=
  [0, 100, 0, 100, 0, 100, 0, 100,
   0, 200, 0, 200, 0, 200, 0, 200,
   1, 44, 1, 44, 1, 44, 1, 44]

/-- Calibration bytes with `zero = 0`, `half = 100`, `full = 100` on every
axis: a degenerate block whose `full - half` divisor is zero. -/
def calDegen : List ℕ :=
  [0, 0, 0, 0, 0, 0, 0, 0,
   0, 100, 0, 100, 0, 100, 0, 100,
   0, 100, 0, 100, 0, 100, 0, 100]

/-- A fully calibrated session holding the degenerate block `calDegen`. -/
def degenSession : Session :=
  { address := "AA"
    status := Status.Connected
    calibration_data := calDegen
    calibration_mask := List.replicate CALIBRATION_LENGTH 0
    sensor_data := List.replicate 8 0
    mass := List.replicate 4 0
    total_mass := 0 }

/-- A sensor-report frame (`data[1] = REPORT_CB8E[0]`) whose four
big-endian readings are 150, 150, 150, 150. -/
def reportFrame150 : List ℕ :=
  [0, 50, 0, 0, 0, 150, 0, 150, 0, 150, 0, 150]

/-- A frame body long enough to supply chunk payload bytes `data[7+i]`. -/
def chunkFrameData : List ℕ := [0, 33, 0, 0, 16, 0, 36, 5, 5]


/-! ## Helper lemmas about the embedding -/

theorem setItem_lt {α : Type} (l : List α) (i : ℕ) (v : α) (h : i < l.length) :
    setItem l i v = some (l.set i v) := by
  simp [setItem, h]

theorem setItem_some {α : Type} {l l' : List α} {i : ℕ} {v : α}
    (h : setItem l i v = some l') : l' = l.set i v ∧ i < l.length := by
  unfold setItem at h
  split_ifs at h with hi
  · exact ⟨(Option.some.inj h).symm, hi⟩

theorem set_of_get? {α : Type} :
    ∀ (l : List α) (i : ℕ) (v : α), l.get? i = some v → l.set i v = l
  | [], i, v, h => by simp at h
  | a :: t, 0, v, h => by
    simp only [List.get?_cons_zero, Option.some.injEq] at h
    simp [List.set, h]
  | a :: t, i + 1, v, h => by
    simp only [List.get?_cons_succ] at h
    simp [List.set, set_of_get? t i v h]

theorem chunkLoop_some_length (data : List ℕ) :
    ∀ (n : ℕ) (cd cm : List ℕ) (offset i : ℕ) (cd' cm' : List ℕ),
      chunkLoop data cd cm offset i n = some (cd', cm') →
      cd'.length = cd.length ∧ cm'.length = cm.length := by
  intro n
  induction n with
  | zero =>
    intro cd cm offset i cd' cm' h
    simp only [chunkLoop, Option.some.injEq, Prod.mk.injEq] at h
    rw [← h.1, ← h.2]
    exact ⟨rfl, rfl⟩
  | succ n ih =>
    intro cd cm offset i cd' cm' h
    rw [chunkLoop] at h
    cases hb : data.get? (7 + i) with
    | none => rw [hb] at h; simp at h
    | some b =>
      rw [hb] at h
      simp only at h
      cases h1 : setItem cd (offset + i) b with
      | none => rw [h1] at h; simp at h
      | some cd2 =>
        rw [h1] at h
        simp only at h
        cases h2 : setItem cm (offset + i) 0 with
        | none => rw [h2] at h; simp at h
        | some cm2 =>
          rw [h2] at h
          simp only at h
          obtain ⟨e1, l1⟩ := setItem_some h1
          obtain ⟨e2, l2⟩ := setItem_some h2
          obtain ⟨r1, r2⟩ := ih cd2 cm2 offset (i + 1) cd' cm' h
          subst e1; subst e2
          simp only [List.length_set] at r1 r2
          exact ⟨r1, r2⟩

theorem chunkLoop_untouched_below (data : List ℕ) :
    ∀ (n : ℕ) (cd cm : List ℕ) (offset i : ℕ) (cd' cm' : List ℕ),
      chunkLoop data cd cm offset i n = some (cd', cm') →
      ∀ j, j < offset + i → cd'.get? j = cd.get? j ∧ cm'.get? j = cm.get? j := by
  intro n
  induction n with
  | zero =>
    intro cd cm offset i cd' cm' h j hj
    simp only [chunkLoop, Option.some.injEq, Prod.mk.injEq] at h
    rw [← h.1, ← h.2]
    exact ⟨rfl, rfl⟩
  | succ n ih =>
    intro cd cm offset i cd' cm' h j hj
    rw [chunkLoop] at h
    cases hb : data.get? (7 + i) with
    | none => rw [hb] at h; simp at h
    | some b =>
      rw [hb] at h
      simp only at h
      cases h1 : setItem cd (offset + i) b with
      | none => rw [h1] at h; simp at h
      | some cd2 =>
        rw [h1] at h
        simp only at h
        cases h2 : setItem cm (offset + i) 0 with
        | none => rw [h2] at h; simp at h
        | some cm2 =>
          rw [h2] at h
          simp only at h
          obtain ⟨e1, l1⟩ := setItem_some h1
          obtain ⟨e2, l2⟩ := setItem_some h2
          obtain ⟨r1, r2⟩ := ih cd2 cm2 offset (i + 1) cd' cm' h j (by omega)
          subst e1; subst e2
          have hne : offset + i ≠ j := by omega
          constructor
          · rw [r1, List.get?_eq_getElem?, List.get?_eq_getElem?, List.getElem?_set_ne hne]
          · rw [r2, List.get?_eq_getElem?, List.get?_eq_getElem?, List.getElem?_set_ne hne]

theorem chunkLoop_succeeds (data : List ℕ) :
    ∀ (n : ℕ) (cd cm : List ℕ) (offset i : ℕ),
      cm.length = cd.length →
      offset + i + n ≤ cd.length →
      7 + i + n ≤ data.length →
      ∃ cd' cm', chunkLoop data cd cm offset i n = some (cd', cm') := by
  intro n
  induction n with
  | zero => intro cd cm offset i _ _ _; exact ⟨cd, cm, rfl⟩
  | succ n ih =>
    intro cd cm offset i hlen hcd hdata
    have hread : 7 + i < data.length := by omega
    obtain ⟨b, hb⟩ : ∃ b, data.get? (7 + i) = some b := by
      cases hg : data.get? (7 + i) with
      | none => rw [List.get?_eq_none] at hg; omega
      | some b => exact ⟨b, rfl⟩
    have hwr : offset + i < cd.length := by omega
    have hwm : offset + i < cm.length := by omega
    obtain ⟨cd', cm', hrec⟩ :=
      ih (cd.set (offset + i) b) (cm.set (offset + i) 0) offset (i + 1)
        (by simp [hlen]) (by simp; omega) (by omega)
    refine ⟨cd', cm', ?_⟩
    rw [chunkLoop, hb]
    simp only
    rw [setItem_lt cd _ _ hwr]
    simp only
    rw [setItem_lt cm _ _ hwm]
    simp only
    exact hrec

theorem chunkLoop_idem (data : List ℕ) :
    ∀ (n : ℕ) (cd cm : List ℕ) (offset i : ℕ) (cd' cm' : List ℕ),
      chunkLoop data cd cm offset i n = some (cd', cm') →
      chunkLoop data cd' cm' offset i n = some (cd', cm') := by
  intro n
  induction n with
  | zero =>
    intro cd cm offset i cd' cm' h
    simp only [chunkLoop, Option.some.injEq, Prod.mk.injEq] at h
    rfl
  | succ n ih =>
    intro cd cm offset i cd' cm' h
    rw [chunkLoop] at h
    cases hb : data.get? (7 + i) with
    | none => rw [hb] at h; simp at h
    | some b =>
      rw [hb] at h
      simp only at h
      cases h1 : setItem cd (offset + i) b with
      | none => rw [h1] at h; simp at h
      | some cd2 =>
        rw [h1] at h
        simp only at h
        cases h2 : setItem cm (offset + i) 0 with
        | none => rw [h2] at h; simp at h
        | some cm2 =>
          rw [h2] at h
          simp only at h
          obtain ⟨e1, l1⟩ := setItem_some h1
          obtain ⟨e2, l2⟩ := setItem_some h2
          subst e1; subst e2
          have hlen := chunkLoop_some_length data n _ _ offset (i + 1) cd' cm' h
          simp only [List.length_set] at hlen
          have huntouched :=
            chunkLoop_untouched_below data n _ _ offset (i + 1) cd' cm' h
              (offset + i) (by omega)
          have hcd' : cd'.get? (offset + i) = some b := by
            rw [huntouched.1, List.get?_eq_getElem?, List.getElem?_set_eq_of_lt b l1]
          have hcm' : cm'.get? (offset + i) = some 0 := by
            rw [huntouched.2, List.get?_eq_getElem?, List.getElem?_set_eq_of_lt 0 l2]
          rw [chunkLoop, hb]
          simp only
          rw [setItem_lt cd' _ _ (by omega : offset + i < cd'.length)]
          simp only
          rw [set_of_get? cd' _ _ hcd']
          rw [setItem_lt cm' _ _ (by omega : offset + i < cm'.length)]
          simp only
          rw [set_of_get? cm' _ _ hcm']
          exact ih _ _ offset (i + 1) cd' cm' h

theorem chunkLoop_overflow_none (data : List ℕ) :
    ∀ (n : ℕ) (cd cm : List ℕ) (offset i : ℕ),
      cm.length = cd.length →
      1 ≤ n →
      cd.length < offset + i + n →
      chunkLoop data cd cm offset i n = none := by
  intro n
  induction n with
  | zero => intro cd cm offset i _ h1 _; omega
  | succ n ih =>
    intro cd cm offset i hlen _ hoob
    rw [chunkLoop]
    cases hb : data.get? (7 + i) with
    | none => rfl
    | some b =>
      simp only
      by_cases hw : offset + i < cd.length
      · rw [setItem_lt cd _ _ hw]
        simp only
        rw [setItem_lt cm _ _ (by omega : offset + i < cm.length)]
        simp only
        exact ih _ _ offset (i + 1) (by simp [hlen]) (by omega) (by simp; omega)
      · unfold setItem
        rw [if_neg hw]

theorem chunkLoop_mask_le (data : List ℕ) :
    ∀ (n : ℕ) (cd cm : List ℕ) (offset i : ℕ) (cd' cm' : List ℕ),
      chunkLoop data cd cm offset i n = some (cd', cm') →
      ∀ j, (cm'.get? j).getD 0 ≤ (cm.get? j).getD 0 := by
  intro n
  induction n with
  | zero =>
    intro cd cm offset i cd' cm' h j
    simp only [chunkLoop, Option.some.injEq, Prod.mk.injEq] at h
    rw [← h.2]
  | succ n ih =>
    intro cd cm offset i cd' cm' h j
    rw [chunkLoop] at h
    cases hb : data.get? (7 + i) with
    | none => rw [hb] at h; simp at h
    | some b =>
      rw [hb] at h
      simp only at h
      cases h1 : setItem cd (offset + i) b with
      | none => rw [h1] at h; simp at h
      | some cd2 =>
        rw [h1] at h
        simp only at h
        cases h2 : setItem cm (offset + i) 0 with
        | none => rw [h2] at h; simp at h
        | some cm2 =>
          rw [h2] at h
          simp only at h
          obtain ⟨e2, l2⟩ := setItem_some h2
          refine le_trans (ih _ _ offset (i + 1) cd' cm' h j) ?_
          subst e2
          rw [List.get?_eq_getElem?, List.get?_eq_getElem?, List.getElem?_set]
          split_ifs <;> simp

theorem applyChunk_mask_le (cd cm : List ℕ) (addr len : ℕ) (data : List ℕ)
    (cd2 cm2 : List ℕ)
    (h : applyCalibrationChunk cd cm addr len data = some (cd2, cm2)) :
    (cd2.length = cd.length ∧ cm2.length = cm.length) ∧
    ∀ j, (cm2.get? j).getD 0 ≤ (cm.get? j).getD 0 := by
  unfold applyCalibrationChunk at h
  split_ifs at h with hg
  · exact ⟨chunkLoop_some_length data len cd cm _ 0 cd2 cm2 h,
      chunkLoop_mask_le data len cd cm _ 0 cd2 cm2 h⟩
  · simp only [Option.some.injEq, Prod.mk.injEq] at h
    rw [← h.1, ← h.2]
    exact ⟨⟨rfl, rfl⟩, fun j => le_refl _⟩

theorem calcMassLoop_some (cal : List ℕ) :
    ∀ (ps : List ℕ) (mass : List ℚ) (i : ℕ) (m : List ℚ),
      calcMassLoop cal mass i ps = some m → m.length = mass.length := by
  intro ps
  induction ps with
  | nil =>
    intro mass i m h
    simp only [calcMassLoop, Option.some.injEq] at h
    rw [← h]
  | cons p ps ih =>
    intro mass i m h
    rw [calcMassLoop] at h
    cases ha : axisMass cal i p with
    | none => rw [ha] at h; simp at h
    | some v =>
      rw [ha] at h
      simp only at h
      cases hs : setItem mass i v with
      | none => rw [hs] at h; simp at h
      | some m2 =>
        rw [hs] at h
        simp only at h
        obtain ⟨e, l⟩ := setItem_some hs
        subst e
        have := ih _ (i + 1) m h
        simpa using this

theorem calculateMass_fields (s s' : Session) (h : calculateMass s = some s') :
    s'.address = s.address ∧ s'.status = s.status ∧
    s'.calibration_data = s.calibration_data ∧
    s'.calibration_mask = s.calibration_mask ∧
    s'.sensor_data = s.sensor_data := by
  unfold calculateMass at h
  cases hm : calcMassLoop s.calibration_data s.mass 0 s.sensor_data with
  | none => rw [hm] at h; simp at h
  | some m =>
    rw [hm] at h
    simp only [Option.some.injEq] at h
    rw [← h]
    exact ⟨rfl, rfl, rfl, rfl, rfl⟩

theorem mask_any_false_iff (l : List ℕ) :
    l.any (fun x => x != 0) = false ↔ ∀ j, (l.get? j).getD 0 = 0 := by
  rw [List.any_eq_false]
  constructor
  · intro h j
    cases hg : l.get? j with
    | none => rfl
    | some a =>
      have := h a (List.get?_mem hg)
      simp only [bne_iff_ne, ne_eq, not_not] at this
      simp [this]
  · intro h x hx
    obtain ⟨n, hn⟩ := List.mem_iff_get?.mp hx
    have := h n
    rw [hn] at this
    simp only [Option.getD_some] at this
    simp [this]

theorem decodeBE2_of_lt (l : List ℕ) (off : ℕ) (h : off + 1 < l.length) :
    decodeBE2 l off = some (getBE l off) := by
  unfold decodeBE2 getBE
  cases h0 : l.get? off with
  | none => rw [List.get?_eq_none] at h0; omega
  | some a =>
    cases h1 : l.get? (off + 1) with
    | none => rw [List.get?_eq_none] at h1; omega
    | some b => simp

theorem massAxisCode_eq_spec (zero half full point : ℕ) (hfh : full ≠ half) :
    massAxisCode zero half full point = some (specMassAxis zero half full point) := by
  unfold massAxisCode specMassAxis
  split_ifs with h1 h2
  · rfl
  · exact congrArg some (mul_div_assoc _ _ _).symm
  · exact congrArg some (congrArg (· + 17) (mul_div_assoc _ _ _).symm)

/-! ## Claim theorems -/

/-- C2: the claim says a degenerate calibration divisor must not crash the
receive loop.  Evaluating the code at `zero = 0`, `half = 100`,
`full = 100`, `point = 150` shows the axis computation raises
ZeroDivisionError (`none`), and a full receive-loop step on a calibrated
session holding that block dies (`runStep = none`) instead of continuing
with a sentinel or zero mass. -/
theorem degenerate_divisor_crashes_loop :
    massAxisCode 0 100 100 150 = none ∧
    runStep degenSession reportFrame150 = none := by
  exact ⟨by decide, by decide⟩

/-- C3: the claim says `disconnect` sets `status` to `Disconnected` so the
receive loop (condition `status == "Connected"`) terminates, and is
idempotent.  Line 106 of the source is `self.status == "Disconnected"`, a
comparison rather than an assignment: `disconnect` leaves the whole
session state unchanged, the status of a connected session stays
`Connected`, and the loop condition remains true. -/
theorem disconnect_does_not_set_status :
    disconnect (initSession "AA") = initSession "AA" ∧
    (disconnect (initSession "AA")).status = Status.Connected ∧
    recvLoopContinues (disconnect (initSession "AA")) = true :=
  ⟨rfl, rfl, rfl⟩

/-- C4 counterexample: a chunk starting at address 59 with 2 data bytes
overlaps the end of the block `[36, 60)`, so by the claim it should be
ignored (state unchanged, non-fatal); the code instead indexes past the
end of the calibration arrays and raises IndexError (`none`). -/
theorem overflowing_chunk_not_ignored :
    applyCalibrationChunk (List.replicate 24 0) (List.replicate 24 1) 59 2 chunkFrameData ≠
      some (List.replicate 24 0, List.replicate 24 1) ∧
    applyCalibrationChunk (List.replicate 24 0) (List.replicate 24 1) 59 2 chunkFrameData =
      none := by
  exact ⟨by decide, by decide⟩

theorem chunkLoop_untouched_above (data : List ℕ) :
    ∀ (n : ℕ) (cd cm : List ℕ) (offset i : ℕ) (cd' cm' : List ℕ),
      chunkLoop data cd cm offset i n = some (cd', cm') →
      ∀ j, offset + i + n ≤ j → cd'.get? j = cd.get? j ∧ cm'.get? j = cm.get? j := by
  intro n
  induction n with
  | zero =>
    intro cd cm offset i cd' cm' h j hj
    simp only [chunkLoop, Option.some.injEq, Prod.mk.injEq] at h
    rw [← h.1, ← h.2]
    exact ⟨rfl, rfl⟩
  | succ n ih =>
    intro cd cm offset i cd' cm' h j hj
    rw [chunkLoop] at h
    cases hb : data.get? (7 + i) with
    | none => rw [hb] at h; simp at h
    | some b =>
      rw [hb] at h
      simp only at h
      cases h1 : setItem cd (offset + i) b with
      | none => rw [h1] at h; simp at h
      | some cd2 =>
        rw [h1] at h
        simp only at h
        cases h2 : setItem cm (offset + i) 0 with
        | none => rw [h2] at h; simp at h
        | some cm2 =>
          rw [h2] at h
          simp only at h
          obtain ⟨e1, l1⟩ := setItem_some h1
          obtain ⟨e2, l2⟩ := setItem_some h2
          obtain ⟨r1, r2⟩ := ih cd2 cm2 offset (i + 1) cd' cm' h j (by omega)
          subst e1; subst e2
          have hne : offset + i ≠ j := by omega
          constructor
          · rw [r1, List.get?_eq_getElem?, List.get?_eq_getElem?, List.getElem?_set_ne hne]
          · rw [r2, List.get?_eq_getElem?, List.get?_eq_getElem?, List.getElem?_set_ne hne]

theorem chunkLoop_writes (data : List ℕ) :
    ∀ (n : ℕ) (cd cm : List ℕ) (offset i : ℕ) (cd' cm' : List ℕ),
      chunkLoop data cd cm offset i n = some (cd', cm') →
      ∀ k, k < n →
        cd'.get? (offset + (i + k)) = data.get? (7 + (i + k)) ∧
        cm'.get? (offset + (i + k)) = some 0 := by
  intro n
  induction n with
  | zero => intro cd cm offset i cd' cm' h k hk; omega
  | succ n ih =>
    intro cd cm offset i cd' cm' h k hk
    rw [chunkLoop] at h
    cases hb : data.get? (7 + i) with
    | none => rw [hb] at h; simp at h
    | some b =>
      rw [hb] at h
      simp only at h
      cases h1 : setItem cd (offset + i) b with
      | none => rw [h1] at h; simp at h
      | some cd2 =>
        rw [h1] at h
        simp only at h
        cases h2 : setItem cm (offset + i) 0 with
        | none => rw [h2] at h; simp at h
        | some cm2 =>
          rw [h2] at h
          simp only at h
          obtain ⟨e1, l1⟩ := setItem_some h1
          obtain ⟨e2, l2⟩ := setItem_some h2
          subst e1; subst e2
          cases k with
          | zero =>
            simp only [Nat.add_zero]
            have hu := chunkLoop_untouched_below data n _ _ offset (i + 1) cd' cm' h
              (offset + i) (by omega)
            constructor
            · rw [hu.1, List.get?_eq_getElem?, List.getElem?_set_eq_of_lt b l1, hb]
            · rw [hu.2, List.get?_eq_getElem?, List.getElem?_set_eq_of_lt 0 l2]
          | succ k =>
            have hidx : i + (k + 1) = i + 1 + k := by omega
            rw [hidx]
            exact ih _ _ offset (i + 1) cd' cm' h k (by omega)

/-- C4 amended: the in-range test checks only the chunk's start address.
A chunk whose start address lies outside the block's address space is
ignored (store and mask unchanged, non-fatal); a chunk whose start is in
range and which fits entirely is copied: each payload byte `data[7+k]`
is written into the calibration store at `offset + k` and the matching
mask bits are cleared to 0, with every other position of both arrays
unchanged; but a chunk whose start is in range and which extends past
the end of the block raises IndexError (fatal to the receive loop). -/
theorem chunk_guard_checks_start_only (cd cm : List ℕ) (addr len : ℕ) (data : List ℕ) :
    (¬(CALIB_START_LSB ≤ addr ∧ addr < CALIB_START_LSB + CALIBRATION_LENGTH) →
      applyCalibrationChunk cd cm addr len data = some (cd, cm)) ∧
    (cd.length = CALIBRATION_LENGTH → cm.length = CALIBRATION_LENGTH →
      CALIB_START_LSB ≤ addr → addr + len ≤ CALIB_START_LSB + CALIBRATION_LENGTH →
      7 + len ≤ data.length →
      (applyCalibrationChunk cd cm addr len data).isSome = true ∧
      ∀ cd' cm', applyCalibrationChunk cd cm addr len data = some (cd', cm') →
        (∀ k, k < len →
          cd'.get? (addr - CALIB_START_LSB + k) = data.get? (7 + k) ∧
          cm'.get? (addr - CALIB_START_LSB + k) = some 0) ∧
        (∀ j, j < addr - CALIB_START_LSB ∨ addr - CALIB_START_LSB + len ≤ j →
          cd'.get? j = cd.get? j ∧ cm'.get? j = cm.get? j)) ∧
    (cd.length = CALIBRATION_LENGTH → cm.length = CALIBRATION_LENGTH →
      CALIB_START_LSB ≤ addr → addr < CALIB_START_LSB + CALIBRATION_LENGTH →
      CALIB_START_LSB + CALIBRATION_LENGTH < addr + len →
      applyCalibrationChunk cd cm addr len data = none) := by
  refine ⟨?_, ?_, ?_⟩
  · intro hg
    unfold applyCalibrationChunk
    rw [if_neg hg]
  · intro hcd hcm hlo hhi hdata
    constructor
    · unfold applyCalibrationChunk
      split_ifs with hg
      · obtain ⟨cd', cm', hsome⟩ :=
          chunkLoop_succeeds data len cd cm (addr - CALIB_START_LSB) 0
            (hcm.trans hcd.symm) (by omega) (by omega)
        rw [hsome]; rfl
      · rfl
    · intro cd' cm' happ
      unfold applyCalibrationChunk at happ
      split_ifs at happ with hg
      · constructor
        · intro k hk
          have hw := chunkLoop_writes data len cd cm (addr - CALIB_START_LSB) 0
            cd' cm' happ k hk
          simpa using hw
        · intro j hj
          rcases hj with hj | hj
          · exact chunkLoop_untouched_below data len cd cm _ 0 cd' cm' happ j (by omega)
          · exact chunkLoop_untouched_above data len cd cm _ 0 cd' cm' happ j (by omega)
      · have hge : CALIB_START_LSB + CALIBRATION_LENGTH ≤ addr := by
          rcases Nat.lt_or_ge addr (CALIB_START_LSB + CALIBRATION_LENGTH) with hlt | hge
          · exact absurd ⟨hlo, hlt⟩ hg
          · exact hge
        simp only [Option.some.injEq, Prod.mk.injEq] at happ
        obtain ⟨h1, h2⟩ := happ
        subst h1; subst h2
        exact ⟨fun k hk => absurd hk (by omega), fun j _ => ⟨rfl, rfl⟩⟩
  · intro hcd hcm hlo hin hoob
    unfold applyCalibrationChunk
    rw [if_pos ⟨hlo, hin⟩]
    exact chunkLoop_overflow_none data len cd cm (addr - CALIB_START_LSB) 0
      (hcm.trans hcd.symm) (by omega) (by omega)

/-- Witness for C4's amended theorem: the overflow conjunct applied to the
concrete chunk of the counterexample. -/
theorem chunk_guard_checks_start_only_witness :
    applyCalibrationChunk (List.replicate 24 0) (List.replicate 24 1) 59 2 chunkFrameData =
      none :=
  (chunk_guard_checks_start_only (List.replicate 24 0) (List.replicate 24 1)
      59 2 chunkFrameData).2.2 (by decide) (by decide) (by decide) (by decide) (by decide)

/-- C5: a report event arriving while at least one calibration mask bit is
still set overwrites `sensor_data` with the four decoded readings but
leaves `mass` and `total_mass` (and everything else) unchanged: the
reading is discarded for mass purposes, and mass is recomputed only when
every mask bit is clear. -/
theorem report_with_mask_set_keeps_mass (s : Session) (frame : List ℕ) (a b c d : ℕ)
    (hpt : frame.get? 1 = some REPORT_CB8E_BYTE)
    (hdec : decode4BE frame 4 = some (a, b, c, d))
    (hmask : s.calibration_mask.any (fun x => x != 0) = true) :
    runStep s frame = some { s with sensor_data := [a, b, c, d] } := by
  unfold runStep
  rw [hpt]
  simp only
  rw [if_neg (by decide : ¬(REPORT_CB8E_BYTE = STATUS_BYTE)),
    if_neg (by decide : ¬(REPORT_CB8E_BYTE = REPORT_CB_BYTE)),
    if_neg (by decide : ¬(REPORT_CB8E_BYTE = READ_RTN_BYTE)),
    if_pos trivial, hdec]
  simp only
  rw [if_pos hmask]

/-- Witness for C5: a freshly connected session (mask all ones) receiving
the concrete report frame with readings 150,150,150,150. -/
theorem report_with_mask_set_keeps_mass_witness :
    runStep (initSession "AA") reportFrame150 =
      some { initSession "AA" with sensor_data := [150, 150, 150, 150] } :=
  report_with_mask_set_keeps_mass (initSession "AA") reportFrame150 150 150 150 150
    (by decide) (by decide) (by decide)

/-- C8 counterexample: at session creation `sensor_data` is `[0]*8`
(`mass.py` line 23), not an ordered sequence of exactly 4 readings. -/
theorem init_sensor_data_not_four_entries :
    (initSession "AA").sensor_data.length ≠ 4 := by decide

/-- C9: applying the same fully-in-range calibration chunk twice yields
exactly the same calibration data and mask arrays as applying it once. -/
theorem chunk_application_idempotent (cd cm data : List ℕ) (addr len : ℕ)
    (hcd : cd.length = CALIBRATION_LENGTH) (hcm : cm.length = CALIBRATION_LENGTH)
    (hlo : CALIB_START_LSB ≤ addr)
    (hhi : addr + len ≤ CALIB_START_LSB + CALIBRATION_LENGTH)
    (hlen : 0 < len) (hdata : 7 + len ≤ data.length) :
    (applyCalibrationChunk cd cm addr len data).isSome = true ∧
    ∀ res : List ℕ × List ℕ,
      applyCalibrationChunk cd cm addr len data = some res →
      applyCalibrationChunk res.1 res.2 addr len data = some res := by
  have hg : CALIB_START_LSB ≤ addr ∧ addr < CALIB_START_LSB + CALIBRATION_LENGTH :=
    ⟨hlo, by omega⟩
  constructor
  · unfold applyCalibrationChunk
    rw [if_pos hg]
    obtain ⟨cd', cm', hsome⟩ :=
      chunkLoop_succeeds data len cd cm (addr - CALIB_START_LSB) 0
        (hcm.trans hcd.symm) (by omega) (by omega)
    rw [hsome]; rfl
  · intro res hres
    unfold applyCalibrationChunk at hres ⊢
    rw [if_pos hg] at hres ⊢
    obtain ⟨cd', cm'⟩ := res
    exact chunkLoop_idem data len cd cm _ 0 cd' cm' hres

/-- C10: every calibration mask bit starts set at session creation; a
receive-loop step can only clear mask bits, never set one (the mask
length is also preserved); hence once the mask is all-clear it stays
all-clear for the rest of the session's lifetime. -/
theorem calibration_mask_monotone :
    (∀ addr, (initSession addr).calibration_mask = List.replicate CALIBRATION_LENGTH 1) ∧
    (∀ (s : Session) (data : List ℕ) (s' : Session), runStep s data = some s' →
      s'.calibration_mask.length = s.calibration_mask.length ∧
      ∀ j, (s'.calibration_mask.get? j).getD 0 ≤ (s.calibration_mask.get? j).getD 0) ∧
    (∀ (s : Session) (data : List ℕ) (s' : Session), runStep s data = some s' →
      s.calibration_mask.any (fun x => x != 0) = false →
      s'.calibration_mask.any (fun x => x != 0) = false) := by
  have main : ∀ (s : Session) (data : List ℕ) (s' : Session), runStep s data = some s' →
      s'.calibration_mask.length = s.calibration_mask.length ∧
      ∀ j, (s'.calibration_mask.get? j).getD 0 ≤ (s.calibration_mask.get? j).getD 0 := by
    intro s data s' h
    unfold runStep at h
    cases hpt : data.get? 1 with
    | none => rw [hpt] at h; simp at h
    | some pt =>
      rw [hpt] at h
      simp only at h
      by_cases h1 : pt = STATUS_BYTE
      · rw [if_pos h1] at h
        cases hg3 : data.get? 3 with
        | none =>
          rw [hg3] at h
          cases hg4 : data.get? 4 with
          | none => rw [hg4] at h; simp at h
          | some y => rw [hg4] at h; simp at h
        | some x =>
          rw [hg3] at h
          cases hg4 : data.get? 4 with
          | none => rw [hg4] at h; simp at h
          | some y =>
            rw [hg4] at h
            simp only [Option.some.injEq] at h
            rw [← h]
            exact ⟨rfl, fun j => le_refl _⟩
      · rw [if_neg h1] at h
        by_cases h2 : pt = REPORT_CB_BYTE
        · rw [if_pos h2] at h
          cases hg3 : data.get? 3 with
          | none => rw [hg3] at h; simp at h
          | some x =>
            rw [hg3] at h
            simp only [Option.some.injEq] at h
            rw [← h]
            exact ⟨rfl, fun j => le_refl _⟩
        · rw [if_neg h2] at h
          by_cases h3 : pt = READ_RTN_BYTE
          · rw [if_pos h3] at h
            cases hg4 : data.get? 4 with
            | none => rw [hg4] at h; simp at h
            | some b4 =>
              rw [hg4] at h
              simp only at h
              cases haddr : decodeBE2 data 5 with
              | none => rw [haddr] at h; simp at h
              | some addr =>
                rw [haddr] at h
                simp only at h
                cases happ : applyCalibrationChunk s.calibration_data s.calibration_mask
                    addr ((b4 >>> 4) + 1) data with
                | none => rw [happ] at h; simp at h
                | some res =>
                  rw [happ] at h
                  obtain ⟨cd, cm⟩ := res
                  simp only [Option.some.injEq] at h
                  rw [← h]
                  have hm := applyChunk_mask_le _ _ _ _ _ _ _ happ
                  exact ⟨hm.1.2, hm.2⟩
          · rw [if_neg h3] at h
            by_cases h4 : pt = REPORT_CB8E_BYTE
            · rw [if_pos h4] at h
              cases hdec : decode4BE data 4 with
              | none => rw [hdec] at h; simp at h
              | some q =>
                rw [hdec] at h
                obtain ⟨a, b, c, d⟩ := q
                simp only at h
                by_cases hany : s.calibration_mask.any (fun x => x != 0) = true
                · rw [if_pos hany] at h
                  simp only [Option.some.injEq] at h
                  rw [← h]
                  exact ⟨rfl, fun j => le_refl _⟩
                · rw [if_neg hany] at h
                  have hf := calculateMass_fields _ _ h
                  rw [hf.2.2.2.1]
                  exact ⟨rfl, fun j => le_refl _⟩
            · rw [if_neg h4] at h
              simp only [Option.some.injEq] at h
              rw [← h]
              exact ⟨rfl, fun j => le_refl _⟩
  refine ⟨fun addr => rfl, main, ?_⟩
  intro s data s' h hall
  rw [mask_any_false_iff] at hall ⊢
  intro j
  have hle := (main s data s' h).2 j
  have h0 := hall j
  omega

/-- Witness for C10: one concrete receive-loop step (a report frame on a
fresh session) with the mask-length conjunct of the step property. -/
theorem calibration_mask_monotone_witness :
    runStep (initSession "AA") reportFrame150 =
      some { initSession "AA" with sensor_data := [150, 150, 150, 150] } ∧
    ({ initSession "AA" with
        sensor_data := [150, 150, 150, 150] } : Session).calibration_mask.length =
      (initSession "AA").calibration_mask.length :=
  ⟨by decide,
    (calibration_mask_monotone.2.1 (initSession "AA") reportFrame150
      { initSession "AA" with sensor_data := [150, 150, 150, 150] } (by decide)).1⟩

/-- C1: on a session whose calibration block is fully present (24 bytes)
and whose last report decoded four readings, `calculate_mass` is the pure
function of `(sensors, calibration)` the spec states: per axis `i` it
decodes `zero`, `half`, `full` big-endian from calibration bytes `2i`,
`2i+8`, `2i+16` and produces exactly the spec's piecewise formula
(`specMassAxis`), with `total_mass` the sum of the four masses; and the
spec's worked example holds: with `zero=100, half=200, full=300` a
reading of 150 gives 8.5, 250 gives 25.5 and 50 gives 0. -/
theorem mass_calculator_correct (addrS : String) (st : Status) (cal mask : List ℕ)
    (p0 p1 p2 p3 : ℕ) (m0 : List ℚ) (tm : ℚ)
    (h24 : cal.length = 24) (hm : m0.length = 4)
    (hfh : ∀ i, i < 4 → getBE cal (i * 2 + 16) ≠ getBE cal (i * 2 + 8)) :
    calculateMass
      { address := addrS, status := st, calibration_data := cal, calibration_mask := mask,
        sensor_data := [p0, p1, p2, p3], mass := m0, total_mass := tm } =
    some
      { address := addrS, status := st, calibration_data := cal, calibration_mask := mask,
        sensor_data := [p0, p1, p2, p3],
        mass := [specMassAxis (getBE cal 0) (getBE cal 8) (getBE cal 16) p0,
                 specMassAxis (getBE cal 2) (getBE cal 10) (getBE cal 18) p1,
                 specMassAxis (getBE cal 4) (getBE cal 12) (getBE cal 20) p2,
                 specMassAxis (getBE cal 6) (getBE cal 14) (getBE cal 22) p3],
        total_mass :=
          ([specMassAxis (getBE cal 0) (getBE cal 8) (getBE cal 16) p0,
            specMassAxis (getBE cal 2) (getBE cal 10) (getBE cal 18) p1,
            specMassAxis (getBE cal 4) (getBE cal 12) (getBE cal 20) p2,
            specMassAxis (getBE cal 6) (getBE cal 14) (getBE cal 22) p3] : List ℚ).sum } ∧
    massAxisCode 100 200 300 150 = some (17 / 2) ∧
    massAxisCode 100 200 300 250 = some (51 / 2) ∧
    massAxisCode 100 200 300 50 = some 0 := by
  have e0 := decodeBE2_of_lt cal 0 (by omega)
  have e2 := decodeBE2_of_lt cal 2 (by omega)
  have e4 := decodeBE2_of_lt cal 4 (by omega)
  have e6 := decodeBE2_of_lt cal 6 (by omega)
  have e8 := decodeBE2_of_lt cal 8 (by omega)
  have e10 := decodeBE2_of_lt cal 10 (by omega)
  have e12 := decodeBE2_of_lt cal 12 (by omega)
  have e14 := decodeBE2_of_lt cal 14 (by omega)
  have e16 := decodeBE2_of_lt cal 16 (by omega)
  have e18 := decodeBE2_of_lt cal 18 (by omega)
  have e20 := decodeBE2_of_lt cal 20 (by omega)
  have e22 := decodeBE2_of_lt cal 22 (by omega)
  have hf0 : getBE cal 16 ≠ getBE cal 8 := by have := hfh 0 (by omega); norm_num at this; exact this
  have hf1 : getBE cal 18 ≠ getBE cal 10 := by have := hfh 1 (by omega); norm_num at this; exact this
  have hf2 : getBE cal 20 ≠ getBE cal 12 := by have := hfh 2 (by omega); norm_num at this; exact this
  have hf3 : getBE cal 22 ≠ getBE cal 14 := by have := hfh 3 (by omega); norm_num at this; exact this
  have haxis0 : axisMass cal 0 p0 =
      some (specMassAxis (getBE cal 0) (getBE cal 8) (getBE cal 16) p0) := by
    unfold axisMass
    norm_num
    rw [e0, e8, e16]
    exact massAxisCode_eq_spec _ _ _ _ hf0
  have haxis1 : axisMass cal 1 p1 =
      some (specMassAxis (getBE cal 2) (getBE cal 10) (getBE cal 18) p1) := by
    unfold axisMass
    norm_num
    rw [e2, e10, e18]
    exact massAxisCode_eq_spec _ _ _ _ hf1
  have haxis2 : axisMass cal 2 p2 =
      some (specMassAxis (getBE cal 4) (getBE cal 12) (getBE cal 20) p2) := by
    unfold axisMass
    norm_num
    rw [e4, e12, e20]
    exact massAxisCode_eq_spec _ _ _ _ hf2
  have haxis3 : axisMass cal 3 p3 =
      some (specMassAxis (getBE cal 6) (getBE cal 14) (getBE cal 22) p3) := by
    unfold axisMass
    norm_num
    rw [e6, e14, e22]
    exact massAxisCode_eq_spec _ _ _ _ hf3
  obtain ⟨a, b, c, d, rfl⟩ : ∃ a b c d, m0 = [a, b, c, d] := by
    rcases m0 with _ | ⟨a, _ | ⟨b, _ | ⟨c, _ | ⟨d, _ | ⟨e, rest⟩⟩⟩⟩⟩ <;>
      simp only [List.length_cons, List.length_nil] at hm <;>
      first
      | exact ⟨a, b, c, d, rfl⟩
      | omega
  have step : ∀ (m : List ℚ) (i p : ℕ) (rest : List ℕ) (v : ℚ),
      axisMass cal i p = some v → i < m.length →
      calcMassLoop cal m i (p :: rest) = calcMassLoop cal (m.set i v) (i + 1) rest := by
    intro m i p rest v ha hi
    rw [calcMassLoop, ha]
    simp only
    rw [setItem_lt m i v hi]
  refine ⟨?_, by norm_num [massAxisCode], by norm_num [massAxisCode], by norm_num [massAxisCode]⟩
  unfold calculateMass
  simp only
  rw [step [a, b, c, d] 0 p0 _ _ haxis0 (by simp),
    step _ 1 p1 _ _ haxis1 (by simp),
    step _ 2 p2 _ _ haxis2 (by simp),
    step _ 3 p3 _ _ haxis3 (by simp),
    calcMassLoop]
  simp [List.set]

/-- Witness for C1: the calculator applied to the example calibration
block (`zero=100, half=200, full=300` on every axis) and the readings
150, 250, 50, 400. -/
theorem mass_calculator_correct_witness :
    calculateMass
      { address := "AA", status := Status.Connected, calibration_data := calEx,
        calibration_mask := List.replicate 24 0, sensor_data := [150, 250, 50, 400],
        mass := [0, 0, 0, 0], total_mass := 0 } =
    some
      { address := "AA", status := Status.Connected, calibration_data := calEx,
        calibration_mask := List.replicate 24 0, sensor_data := [150, 250, 50, 400],
        mass := [specMassAxis (getBE calEx 0) (getBE calEx 8) (getBE calEx 16) 150,
                 specMassAxis (getBE calEx 2) (getBE calEx 10) (getBE calEx 18) 250,
                 specMassAxis (getBE calEx 4) (getBE calEx 12) (getBE calEx 20) 50,
                 specMassAxis (getBE calEx 6) (getBE calEx 14) (getBE calEx 22) 400],
        total_mass :=
          ([specMassAxis (getBE calEx 0) (getBE calEx 8) (getBE calEx 16) 150,
            specMassAxis (getBE calEx 2) (getBE calEx 10) (getBE calEx 18) 250,
            specMassAxis (getBE calEx 4) (getBE calEx 12) (getBE calEx 20) 50,
            specMassAxis (getBE calEx 6) (getBE calEx 14) (getBE calEx 22) 400] : List ℚ).sum } ∧
    massAxisCode 100 200 300 150 = some (17 / 2) ∧
    massAxisCode 100 200 300 250 = some (51 / 2) ∧
    massAxisCode 100 200 300 50 = some 0 :=
  mass_calculator_correct "AA" Status.Connected calEx (List.replicate 24 0)
    150 250 50 400 [0, 0, 0, 0] 0 (by decide) (by decide)
    (by intro i hi; interval_cases i <;> decide)

/-- C7: for calibration triples with `zero < half < full`, the per-axis
mass function is continuous at `point = half` (the code's branch at
`half` and the lower branch formula evaluated at `half` both yield 17)
and at `point = zero` (yielding 0), and is monotonically non-decreasing
in the reading. -/
theorem mass_axis_continuous_monotone (zero half full : ℕ)
    (h1 : zero < half) (h2 : half < full) :
    massAxisCode zero half full half = some 17 ∧
    ((half : ℚ) - (zero : ℚ)) * (17 / ((half : ℚ) - (zero : ℚ))) = 17 ∧
    massAxisCode zero half full zero = some 0 ∧
    ∀ p1 p2 : ℕ, p1 ≤ p2 → ∀ m1 m2 : ℚ,
      massAxisCode zero half full p1 = some m1 →
      massAxisCode zero half full p2 = some m2 → m1 ≤ m2 := by
  have hzq : (zero : ℚ) < (half : ℚ) := by exact_mod_cast h1
  have hhq : (half : ℚ) < (full : ℚ) := by exact_mod_cast h2
  have hdz : (0 : ℚ) < (half : ℚ) - (zero : ℚ) := by linarith
  have hdf : (0 : ℚ) < (full : ℚ) - (half : ℚ) := by linarith
  have hA : (0 : ℚ) < 17 / ((half : ℚ) - (zero : ℚ)) := by positivity
  have hB : (0 : ℚ) < 17 / ((full : ℚ) - (half : ℚ)) := by positivity
  have hA17 : ((half : ℚ) - (zero : ℚ)) * (17 / ((half : ℚ) - (zero : ℚ))) = 17 := by
    field_simp
  refine ⟨?_, hA17, ?_, ?_⟩
  · unfold massAxisCode
    rw [if_neg (by omega : ¬ half < zero),
      if_neg (by omega : ¬(zero ≤ half ∧ half < half)),
      if_neg (by omega : ¬ full = half)]
    norm_num
  · unfold massAxisCode
    rw [if_neg (by omega : ¬ zero < zero),
      if_pos (⟨le_refl zero, h1⟩ : zero ≤ zero ∧ zero < half)]
    norm_num
  · intro p1 p2 hp m1 m2 e1 e2
    have hpq : (p1 : ℚ) ≤ (p2 : ℚ) := by exact_mod_cast hp
    unfold massAxisCode at e1 e2
    by_cases c1 : p1 < zero
    · rw [if_pos c1] at e1
      obtain rfl : (0 : ℚ) = m1 := Option.some.inj e1
      by_cases c2 : p2 < zero
      · rw [if_pos c2] at e2
        obtain rfl : (0 : ℚ) = m2 := Option.some.inj e2
        exact le_refl _
      · by_cases c3 : zero ≤ p2 ∧ p2 < half
        · rw [if_neg c2, if_pos c3] at e2
          obtain rfl := Option.some.inj e2
          have : (zero : ℚ) ≤ (p2 : ℚ) := by exact_mod_cast c3.1
          exact mul_nonneg (by linarith) hA.le
        · rw [if_neg c2, if_neg c3, if_neg (by omega : ¬ full = half)] at e2
          obtain rfl := Option.some.inj e2
          have hp2h : half ≤ p2 := by omega
          have : (half : ℚ) ≤ (p2 : ℚ) := by exact_mod_cast hp2h
          have := mul_nonneg (by linarith : (0 : ℚ) ≤ (p2 : ℚ) - (half : ℚ)) hB.le
          linarith
    · rw [if_neg c1] at e1
      by_cases c1b : zero ≤ p1 ∧ p1 < half
      · rw [if_pos c1b] at e1
        obtain rfl := Option.some.inj e1
        by_cases c2 : p2 < zero
        · omega
        · by_cases c3 : zero ≤ p2 ∧ p2 < half
          · rw [if_neg c2, if_pos c3] at e2
            obtain rfl := Option.some.inj e2
            exact mul_le_mul_of_nonneg_right (by linarith) hA.le
          · rw [if_neg c2, if_neg c3, if_neg (by omega : ¬ full = half)] at e2
            obtain rfl := Option.some.inj e2
            have hp1h : (p1 : ℚ) ≤ (half : ℚ) := by
              have : p1 ≤ half := by omega
              exact_mod_cast this
            have hm1 : ((p1 : ℚ) - (zero : ℚ)) * (17 / ((half : ℚ) - (zero : ℚ))) ≤ 17 := by
              calc ((p1 : ℚ) - (zero : ℚ)) * (17 / ((half : ℚ) - (zero : ℚ)))
                  ≤ ((half : ℚ) - (zero : ℚ)) * (17 / ((half : ℚ) - (zero : ℚ))) :=
                    mul_le_mul_of_nonneg_right (by linarith) hA.le
                _ = 17 := hA17
            have hp2h : half ≤ p2 := by omega
            have hc : (half : ℚ) ≤ (p2 : ℚ) := by exact_mod_cast hp2h
            have := mul_nonneg (by linarith : (0 : ℚ) ≤ (p2 : ℚ) - (half : ℚ)) hB.le
            linarith
      · rw [if_neg c1b, if_neg (by omega : ¬ full = half)] at e1
        obtain rfl := Option.some.inj e1
        have hp1h : half ≤ p1 := by omega
        have hc2 : ¬ p2 < zero := by omega
        have hc3 : ¬(zero ≤ p2 ∧ p2 < half) := by omega
        rw [if_neg hc2, if_neg hc3, if_neg (by omega : ¬ full = half)] at e2
        obtain rfl := Option.some.inj e2
        have := mul_le_mul_of_nonneg_right
          (by linarith : (p1 : ℚ) - (half : ℚ) ≤ (p2 : ℚ) - (half : ℚ)) hB.le
        linarith

/-- Witness for C7: the example triple `zero=100, half=200, full=300` with
readings 150 and 250, instantiating the monotonicity conjunct. -/
theorem mass_axis_continuous_monotone_witness :
    massAxisCode 100 200 300 150 = some (17 / 2) ∧
    massAxisCode 100 200 300 250 = some (51 / 2) ∧
    ((17 : ℚ) / 2) ≤ 51 / 2 :=
  ⟨by norm_num [massAxisCode], by norm_num [massAxisCode],
    (mass_axis_continuous_monotone 100 200 300 (by norm_num) (by norm_num)).2.2.2 150 250
      (by norm_num) (17 / 2) (51 / 2) (by norm_num [massAxisCode]) (by norm_num [massAxisCode])⟩

theorem charListLe_total : ∀ as bs : List Char,
    charListLe as bs = true ∨ charListLe bs as = true := by
  intro as
  induction as with
  | nil => intro bs; left; rfl
  | cons a as ih =>
    intro bs
    cases bs with
    | nil => right; rfl
    | cons b bs =>
      simp only [charListLe]
      rcases Nat.lt_trichotomy a.toNat b.toNat with h | h | h
      · left; simp [h]
      · rcases ih bs with h2 | h2
        · left; simp [h, h2, Nat.lt_irrefl]
        · right; simp [h, h2, Nat.lt_irrefl]
      · right; simp [h]

theorem charListLe_trans : ∀ as bs cs : List Char,
    charListLe as bs = true → charListLe bs cs = true → charListLe as cs = true := by
  intro as
  induction as with
  | nil => intro bs cs _ _; rfl
  | cons a as ih =>
    intro bs cs h1 h2
    cases bs with
    | nil => simp [charListLe] at h1
    | cons b bs =>
      cases cs with
      | nil => simp [charListLe] at h2
      | cons c cs =>
        simp only [charListLe] at h1 h2 ⊢
        split_ifs at h1 h2 ⊢ with hab hba hbc hcb hac hca
        all_goals first | rfl | omega | (exact ih bs cs h1 h2)

theorem dictGet_sum (l : List (String × ℚ)) (hnd : (l.map Prod.fst).Nodup) :
    ((l.map Prod.fst).map (fun k => dictGet l k)).sum = (l.map Prod.snd).sum := by
  induction l with
  | nil => rfl
  | cons p t ih =>
    obtain ⟨a, b⟩ := p
    simp only [List.map_cons, List.nodup_cons] at hnd ⊢
    obtain ⟨ha, ht⟩ := hnd
    simp only [List.sum_cons]
    have h1 : dictGet ((a, b) :: t) a = b := by simp [dictGet]
    have h2 : (t.map Prod.fst).map (fun k => dictGet ((a, b) :: t) k) =
        (t.map Prod.fst).map (fun k => dictGet t k) := by
      apply List.map_congr_left
      intro k hk
      have hne : k ≠ a := fun he => ha (he ▸ hk)
      simp [dictGet, hne]
    rw [h1, h2, ih ht]

/-- C6: each broadcast tick produces a payload whose boards list is
sorted in ascending address order and whose serialised `total` equals the
sum of the `mass` values of its own boards entries; with boards "AA"
(total 34) and "BB" (total 10), the payload is exactly
`boards = [("AA", 34), ("BB", 10)]`, `total = 44`. -/
theorem mass_server_sorted_and_total (boards : List (String × ℚ))
    (hnd : (boards.map Prod.fst).Nodup) :
    ((mass_server boards).2.map Prod.fst).Sorted (fun a b => strLe a b = true) ∧
    ((mass_server boards).2.map Prod.snd).sum = (mass_server boards).1 ∧
    mass_server [("AA", 34), ("BB", 10)] = (44, [("AA", 34), ("BB", 10)]) := by
  refine ⟨?_, ?_, ?_⟩
  · unfold mass_server
    simp only
    rw [List.map_map]
    have hcomp : (Prod.fst ∘ fun k => (k, dictGet boards k)) = id := rfl
    rw [hcomp, List.map_id]
    haveI : IsTotal String (fun a b => strLe a b = true) :=
      ⟨fun a b => charListLe_total a.data b.data⟩
    haveI : IsTrans String (fun a b => strLe a b = true) :=
      ⟨fun a b c => charListLe_trans a.data b.data c.data⟩
    exact List.sorted_insertionSort _ _
  · unfold mass_server
    simp only
    rw [List.map_map]
    have hcomp : (Prod.snd ∘ fun k => (k, dictGet boards k)) =
        fun k => dictGet boards k := rfl
    rw [hcomp]
    have hperm :
        (List.insertionSort (fun a b => strLe a b = true) (boards.map Prod.fst)).Perm
          (boards.map Prod.fst) := List.perm_insertionSort _ _
    rw [(hperm.map (fun k => dictGet boards k)).sum_eq]
    exact dictGet_sum boards hnd
  · norm_num [mass_server, dictGet, List.insertionSort, List.orderedInsert, strLe, charListLe]
    decide

/-- Witness for C6: the sortedness conjunct at the two-board example. -/
theorem mass_server_sorted_and_total_witness :
    ((mass_server [("AA", 34), ("BB", 10)]).2.map Prod.fst).Sorted
      (fun a b => strLe a b = true) :=
  (mass_server_sorted_and_total [("AA", 34), ("BB", 10)] (by decide)).1

theorem decodeBE2_bound (l : List ℕ) (off v : ℕ) (h : decodeBE2 l off = some v)
    (hb : ∀ x ∈ l, x < 256) : v < 65536 := by
  unfold decodeBE2 at h
  cases h0 : l.get? off with
  | none => rw [h0] at h; simp at h
  | some hi =>
    rw [h0] at h
    cases h1 : l.get? (off + 1) with
    | none => rw [h1] at h; simp at h
    | some lo =>
      rw [h1] at h
      simp only [Option.some.injEq] at h
      have bhi := hb hi (List.get?_mem h0)
      have blo := hb lo (List.get?_mem h1)
      omega

/-- C8 amended: `sensor_data` is created as `[0]*8` (eight entries, not
four); every successfully parsed report event overwrites it with the list
of exactly the four big-endian 16-bit values decoded from frame bytes
4..11, so from the first report onward it holds exactly 4 readings, each
an unsigned 16-bit value whenever the frame consists of bytes. -/
theorem sensor_data_init_and_report (addrS : String) :
    (initSession addrS).sensor_data = List.replicate 8 0 ∧
    ∀ (s : Session) (frame : List ℕ) (a b c d : ℕ) (s' : Session),
      frame.get? 1 = some REPORT_CB8E_BYTE →
      decode4BE frame 4 = some (a, b, c, d) →
      runStep s frame = some s' →
      s'.sensor_data = [a, b, c, d] ∧
      ((∀ x ∈ frame, x < 256) →
        a < 65536 ∧ b < 65536 ∧ c < 65536 ∧ d < 65536) := by
  refine ⟨rfl, ?_⟩
  intro s frame a b c d s' hpt hdec h
  constructor
  · unfold runStep at h
    rw [hpt] at h
    simp only at h
    rw [if_neg (by decide : ¬(REPORT_CB8E_BYTE = STATUS_BYTE)),
      if_neg (by decide : ¬(REPORT_CB8E_BYTE = REPORT_CB_BYTE)),
      if_neg (by decide : ¬(REPORT_CB8E_BYTE = READ_RTN_BYTE)),
      if_pos trivial, hdec] at h
    simp only at h
    by_cases hany : s.calibration_mask.any (fun x => x != 0) = true
    · rw [if_pos hany] at h
      simp only [Option.some.injEq] at h
      rw [← h]
    · rw [if_neg hany] at h
      exact (calculateMass_fields _ _ h).2.2.2.2
  · intro hb
    unfold decode4BE at hdec
    cases d0 : decodeBE2 frame 4 with
    | none => rw [d0] at hdec; simp at hdec
    | some v0 =>
      rw [d0] at hdec
      cases d1 : decodeBE2 frame 6 with
      | none => rw [d1] at hdec; simp at hdec
      | some v1 =>
        rw [d1] at hdec
        cases d2 : decodeBE2 frame 8 with
        | none => rw [d2] at hdec; simp at hdec
        | some v2 =>
          rw [d2] at hdec
          cases d3 : decodeBE2 frame 10 with
          | none => rw [d3] at hdec; simp at hdec
          | some v3 =>
            rw [d3] at hdec
            simp only [Option.some.injEq, Prod.mk.injEq] at hdec
            obtain ⟨rfl, rfl, rfl, rfl⟩ := hdec
            exact ⟨decodeBE2_bound frame 4 _ d0 hb, decodeBE2_bound frame 6 _ d1 hb,
              decodeBE2_bound frame 8 _ d2 hb, decodeBE2_bound frame 10 _ d3 hb⟩

/-- Witness for C8's amended theorem: the report conjunct applied to a
fresh session and the concrete report frame with readings 150. -/
theorem sensor_data_init_and_report_witness :
    ({ initSession "AA" with sensor_data := [150, 150, 150, 150] } : Session).sensor_data =
      [150, 150, 150, 150] :=
  ((sensor_data_init_and_report "AA").2 (initSession "AA") reportFrame150 150 150 150 150
    { initSession "AA" with sensor_data := [150, 150, 150, 150] }
    (by decide) (by decide) (by decide)).1

/-- Witness for C9: applying the concrete in-range chunk at address 36
with two payload bytes a second time returns the once-applied state. -/
theorem chunk_application_idempotent_witness :
    applyCalibrationChunk (((List.replicate 24 0).set 0 5).set 1 5)
        (((List.replicate 24 1).set 0 0).set 1 0) 36 2 chunkFrameData =
      some ((((List.replicate 24 0).set 0 5).set 1 5),
        (((List.replicate 24 1).set 0 0).set 1 0)) :=
  (chunk_application_idempotent (List.replicate 24 0) (List.replicate 24 1) chunkFrameData 36 2
    (by decide) (by decide) (by decide) (by decide) (by decide) (by decide)).2
    ((((List.replicate 24 0).set 0 5).set 1 5), (((List.replicate 24 1).set 0 0).set 1 0))
    (by decide)
